import Mathlib

/-!
Shallow embedding of the camera-server recording engine
(`camera_server.py`, `cleanup_recordings.py`).

Times are modelled as exact rationals (Python floats of epoch seconds).
Sidecar metadata dictionaries are modelled as a structure of optional
fields, matching `dict.get` with its defaults.  Filesystem paths are
strings; the sweeper's path arithmetic (`str.replace`, `str.endswith`,
`str.startswith`) is embedded by executable functions over `List Char`
with the same semantics as the Python originals.
-/

/-- Python `s.startswith(pre)`. -/
def pyStartsWith (s pre : String) : Bool :=
  pre.data.isPrefixOf s.data

/-- Python `s.endswith(suf)`. -/
def pyEndsWith (s suf : String) : Bool :=
  suf.data.isSuffixOf s.data

/-- Left-to-right scan of Python `str.replace` for a fixed non-empty
pattern: at each position, if the pattern starts here, emit the
replacement and jump past the match, else keep the character.  Fuel is
the length of the scanned list, which bounds the number of steps. -/
def pyReplaceAux (pat rep : List Char) : Nat → List Char → List Char
  | 0, s => s
  | _ + 1, [] => []
  | n + 1, c :: cs =>
    if pat.isPrefixOf (c :: cs) then
      rep ++ pyReplaceAux pat rep n (List.drop (pat.length - 1) cs)
    else
      c :: pyReplaceAux pat rep n cs

/-- Python `s.replace(pat, rep)` (all occurrences, left to right).  The
program only ever calls this with the non-empty pattern `".json"`, so the
empty-pattern case (where Python would interleave) is returned unchanged. -/
def pyReplace (s pat rep : String) : String :=
  if pat.data = [] then s else ⟨pyReplaceAux pat.data rep.data s.data.length s.data⟩

/-- A sidecar metadata JSON object.  Each field is optional, matching a
Python dict; `none` means the key is absent.  The fields written by
`camera_server.py` are the first six; `keep` is the key read by
`cleanup_recordings.should_delete`, and `retain` is the protection flag
named by the specification (never written nor read by the code). -/
structure Metadata where
  camera_id : Option String := none
  type : Option String := none
  start_time : Option ℚ := none
  end_time : Option ℚ := none
  duration : Option ℚ := none
  file : Option String := none
  keep : Option Bool := none
  retain : Option Bool := none
deriving DecidableEq, Repr

/-- `cleanup_recordings.get_recording_age_days`: Python falsy test
`if end_time:` makes both a missing and a zero `end_time` yield age 0. -/
def get_recording_age_days (m : Metadata) (now : ℚ) : ℚ :=
  match m.end_time with
  | some e => if e ≠ 0 then (now - e) / (24 * 3600) else 0
  | none => 0

/-- `cleanup_recordings.should_delete`: keep when `keep` is truthy, keep
when the `type` string starts with `"event"`, else delete exactly when
the age in days exceeds `max_age_days`. -/
def should_delete (m : Metadata) (max_age_days now : ℚ) : Bool :=
  if m.keep.getD false then false
  else if pyStartsWith (m.type.getD "") "event" then false
  else decide (get_recording_age_days m now > max_age_days)

/-- A file in the storage tree: `parse` is the result of `json.load`
when the file is opened as JSON (`none` = parse failure, e.g. a binary
video file), `size` is `os.path.getsize`. -/
structure FsFile where
  parse : Option Metadata
  size : Nat
deriving DecidableEq, Repr

/-- The storage tree as a finite map from path to file. -/
abbrev FsTree := List (String × FsFile)

/-- The file currently stored at path `p`, if any. -/
def findFile (t : FsTree) (p : String) : Option FsFile :=
  (t.find? (fun e => e.1 == p)).map (·.2)

/-- `os.remove p` on the model tree. -/
def removeFile (t : FsTree) (p : String) : FsTree :=
  t.filter (fun e => e.1 != p)

/-- The counters accumulated by `cleanup_recordings`. -/
structure Report where
  deleted_count : Nat
  deleted_size : Nat
  kept_count : Nat
deriving DecidableEq, Repr

/-- `video_path = metadata_path.replace('.json', '.mp4')`
(`cleanup_recordings.py` line 88). -/
def video_path_of (p : String) : String :=
  pyReplace p ".json" ".mp4"

/-- One pass of the sweep over the walked file list (`cleanup_recordings.py`
lines 82-123).  The worklist is the walk's enumeration of the original
tree; `t` is the live tree (a file already removed by an earlier
iteration fails to open, which the Python code catches and skips).
Only names ending in `.json` are considered; parse failures are skipped;
on `should_delete` the video file (if present) and then the sidecar are
removed unless `dry_run`, and the size is taken before deletion. -/
def sweepGo (max_age_days now : ℚ) (dry_run : Bool) :
    List (String × FsFile) → FsTree → Report → FsTree × Report
  | [], t, r => (t, r)
  | (p, _) :: rest, t, r =>
    if pyEndsWith p ".json" then
      match findFile t p with
      | none => sweepGo max_age_days now dry_run rest t r
      | some f =>
        match f.parse with
        | none => sweepGo max_age_days now dry_run rest t r
        | some m =>
          if should_delete m max_age_days now then
            let vp := video_path_of p
            let sz := ((findFile t vp).map (·.size)).getD 0
            if dry_run then
              sweepGo max_age_days now dry_run rest t
                { r with deleted_count := r.deleted_count + 1,
                         deleted_size := r.deleted_size + sz }
            else
              sweepGo max_age_days now dry_run rest
                (removeFile (removeFile t vp) p)
                { r with deleted_count := r.deleted_count + 1,
                         deleted_size := r.deleted_size + sz }
          else
            sweepGo max_age_days now dry_run rest t
              { r with kept_count := r.kept_count + 1 }
    else
      sweepGo max_age_days now dry_run rest t r

/-- Result of one sweep: surviving files, surviving directories, report. -/
structure SweepResult where
  files : FsTree
  dirs : List String
  report : Report
deriving DecidableEq, Repr

/-- A directory still holds a file (so `os.rmdir` would fail / not fire). -/
def dirHasFile (files : FsTree) (d : String) : Bool :=
  files.any (fun e => pyStartsWith e.1 (d ++ "/"))

/-- `cleanup_recordings.cleanup_recordings`: the sidecar pass, then —
only when not `dry_run` — the bottom-up removal of empty directories. -/
def cleanup_recordings (files : FsTree) (dirs : List String)
    (max_age_days now : ℚ) (dry_run : Bool) : SweepResult :=
  let fr := sweepGo max_age_days now dry_run files files ⟨0, 0, 0⟩
  if dry_run then ⟨fr.1, dirs, fr.2⟩
  else ⟨fr.1, dirs.filter (fun d => dirHasFile fr.1 d), fr.2⟩

/-- Per-camera event-recording state of `StreamProcessor`:
`event_recording`, `event_end_time`, the number of
`_save_pre_event_buffer` jobs submitted to the executor, and the length
of `current_segment_frames`. -/
structure TrigState where
  event_recording : Bool
  event_end_time : Option ℚ
  pre_event_saves : Nat
  current_segment_frames : Nat
deriving DecidableEq, Repr

/-- `StreamProcessor.trigger_event_recording` (lines 145-154): on every
call it overwrites `event_end_time` with `now + post_event_duration`,
sets `event_recording`, and submits one `_save_pre_event_buffer` job —
there is no guard for an already-active window. -/
def trigger_event_recording (s : TrigState) (now post_event_duration : ℚ) : TrigState :=
  { s with event_recording := true,
           event_end_time := some (now + post_event_duration),
           pre_event_saves := s.pre_event_saves + 1 }

/-- `StreamProcessor._handle_event_recording` (lines 124-143): when the
window expires the flags are reset and the event frame list cleared;
while active, the frame is appended and the list capped at 300.  No
segment or sidecar is touched on either path. -/
def handle_event_recording (s : TrigState) (now : ℚ) : TrigState :=
  if s.event_recording then
    if decide (now ≥ (s.event_end_time.getD 0)) then
      { s with event_recording := false, event_end_time := none,
               current_segment_frames := 0 }
    else
      { s with current_segment_frames :=
          if s.current_segment_frames + 1 > 300 then 300
          else s.current_segment_frames + 1 }
  else s

/-- The sidecar dictionary written by `_close_segment_writer`
(lines 222-229): six keys, neither `keep` nor `retain`. -/
def close_segment_metadata (camera_id : String) (segment_start now : ℚ)
    (file : String) : Metadata :=
  { camera_id := some camera_id, type := some "continuous",
    start_time := some segment_start, end_time := some now,
    duration := some (now - segment_start), file := some file }

/-- The sidecar dictionary written by `_save_pre_event_buffer`
(lines 183-190): six keys, neither `keep` nor `retain`. -/
def pre_event_metadata (camera_id : String) (trigger_time pre_event_buffer : ℚ)
    (file : String) : Metadata :=
  { camera_id := some camera_id, type := some "pre_event",
    start_time := some (trigger_time - pre_event_buffer),
    end_time := some trigger_time,
    duration := some pre_event_buffer, file := some file }

/-- `int(10 * 10)`: the fixed `deque` capacity of `frame_buffer`
(line 30). -/
def frame_buffer_maxlen : Nat := 100

/-- `deque.append` with `maxlen`: when full, the oldest (leftmost) entry
is discarded.  Eviction depends only on the entry count, never on the
stored timestamps. -/
def frame_buffer_append {α : Type} (buf : List α) (x : α) : List α :=
  if buf.length = frame_buffer_maxlen then buf.tail ++ [x] else buf ++ [x]

/-- Ordered effects on one artifact's files, for the commit-order claims. -/
inductive FileAct where
  | create_writer
  | write_frame
  | release_writer
  | write_sidecar
deriving DecidableEq, Repr

/-- Effect trace of `StreamProcessor._close_segment_writer` (lines
216-234): when a writer is open, `release()` first, the sidecar JSON
write after; otherwise nothing. -/
def close_segment_writer_acts (writer_open : Bool) : List FileAct :=
  if writer_open then [FileAct.release_writer, FileAct.write_sidecar] else []

/-- Effect trace of `StreamProcessor._save_pre_event_buffer` (lines
156-199): with a non-empty frame buffer, create the clip writer, write
the frames, `release()`, then write the sidecar JSON; with an empty
buffer nothing is written. -/
def save_pre_event_buffer_acts (buffer_nonempty : Bool) : List FileAct :=
  if buffer_nonempty then
    [FileAct.create_writer, FileAct.write_frame, FileAct.release_writer, FileAct.write_sidecar]
  else []

/-- Scans a trace and checks that every sidecar write is preceded by a
writer release: `released` records whether a release has been seen. -/
def sidecar_after_release : Bool → List FileAct → Bool
  | _, [] => true
  | released, FileAct.write_sidecar :: rest => released && sidecar_after_release released rest
  | _, FileAct.release_writer :: rest => sidecar_after_release true rest
  | released, _ :: rest => sidecar_after_release released rest

/-- Outcome of one `cap.read()` in the frame loop. -/
inductive ReadResult where
  | ok
  | fail
deriving DecidableEq, Repr

/-- One iteration of the outer reconnect loop: either
`cap.isOpened()` is false, or the stream opens and serves reads. -/
inductive ConnAttempt where
  | open_fail
  | open_ok : List ReadResult → ConnAttempt
deriving DecidableEq, Repr

/-- Observable actions of `StreamProcessor.start_processing`. -/
inductive LoopAct where
  | open_try
  | backoff
  | start_writer
  | append_buffer
  | write_frame
  | close_segment
  | release_capture
  | unbound_local_error
deriving DecidableEq, Repr

/-- One outer-loop iteration of `StreamProcessor.start_processing`
(lines 47-122), as an effect trace plus the carried writer state.

* open failure (line 63): log, `sleep(5)`, `continue` — nothing closed.
* inner loop: a failed read breaks out, after which any open segment is
  closed, the capture released, and the outer loop retries at once —
  there is no sleep on this path (lines 82-84, 117-118).  An exhausted
  read script models `cap.isOpened()` turning false, which leaves the
  inner loop the same way.
* a successful read: on the first frame the segment writer is started
  (line 89), the frame is buffered (92) and written (96), then `del
  frame` (98) unbinds the local, so the call
  `self._handle_event_recording(frame, fps)` (110) raises
  `UnboundLocalError`; the `except` handler logs and sleeps 5 s
  (120-122) without closing the segment writer, which stays open. -/
def run_connection (writer_open : Bool) : ConnAttempt → Bool × List LoopAct
  | ConnAttempt.open_fail => (writer_open, [LoopAct.open_try, LoopAct.backoff])
  | ConnAttempt.open_ok reads =>
    match reads with
    | [] =>
      (false, LoopAct.open_try ::
        ((if writer_open then [LoopAct.close_segment] else []) ++ [LoopAct.release_capture]))
    | ReadResult.fail :: _ =>
      (false, LoopAct.open_try ::
        ((if writer_open then [LoopAct.close_segment] else []) ++ [LoopAct.release_capture]))
    | ReadResult.ok :: _ =>
      (true, [LoopAct.open_try, LoopAct.start_writer, LoopAct.append_buffer,
              LoopAct.write_frame, LoopAct.unbound_local_error, LoopAct.backoff])

/-- The outer `while self.running` loop of `start_processing`, run over
a finite script of connection outcomes (the script ending models
`running` being cleared from outside). -/
def start_processing : Bool → List ConnAttempt → List LoopAct
  | _, [] => []
  | w, c :: cs => (run_connection w c).2 ++ start_processing (run_connection w c).1 cs

/-- The sidecar path the sweeper would pair with video `v`: same stem
(name without the final `.mp4` extension) with extension `.json`. -/
def mp4_sidecar_name (v : String) : String :=
  ⟨v.data.take (v.data.length - 4) ++ ".json".data⟩

/-- A sidecar path is well formed when `.json` occurs in it only as the
final extension (so `str.replace('.json', '.mp4')` rewrites exactly the
extension). -/
def sidecar_name_ok (p : String) : Prop :=
  pyEndsWith p ".json" = true → ¬ (".json".data <:+: p.data.take (p.data.length - 5))

/-! Auxiliary facts about the embedded path operations.  `".json"` has
no self-overlap, so `str.replace` rewrites exactly the occurrences
present in the original string; when a sidecar path contains `".json"`
only as its final extension, the replacement is extension rewriting. -/
lemma replAux_nil (pat rep : List Char) (n : Nat) : pyReplaceAux pat rep n [] = [] := by
  cases n <;> rfl

lemma json_no_border (k : Nat) (h1 : 1 ≤ k) (h2 : k ≤ 4) :
    ".json".data ≠ ".json".data.take k ++ ".json".data.take (5 - k) := by
  interval_cases k <;> decide

lemma not_prefix_append_self (s : List Char) (h1 : s ≠ []) (h2 : s.length ≤ 4)
    (hp : ".json".data <+: s ++ ".json".data) : False := by
  have htake := List.prefix_iff_eq_take.mp hp
  rw [List.take_append_eq_append_take] at htake
  have hj5 : ".json".data.length = 5 := rfl
  rw [hj5] at htake
  rw [List.take_of_length_le (by omega)] at htake
  have hs : ".json".data.take s.length = s := by
    have := congrArg (List.take s.length) htake
    simpa [List.take_left] using this
  have hk1 : 1 ≤ s.length := by
    cases s with
    | nil => exact absurd rfl h1
    | cons a l => simp
  have hfinal : ".json".data = ".json".data.take s.length ++ ".json".data.take (5 - s.length) := by
    rw [hs]; exact htake
  exact json_no_border s.length hk1 h2 hfinal

lemma no_early_occurrence (t : List Char) (h : ¬ (".json".data <:+: t)) :
    ∀ i, i < t.length → ¬ (".json".data <+: (t ++ ".json".data).drop i) := by
  intro i hi hp
  rw [List.drop_append_of_le_length (le_of_lt hi)] at hp
  by_cases h5 : 5 ≤ (t.drop i).length
  · have htake := List.prefix_iff_eq_take.mp hp
    rw [List.take_append_eq_append_take] at htake
    have hj5 : ".json".data.length = 5 := rfl
    rw [hj5] at htake
    have h0 : (5 : Nat) - (t.drop i).length = 0 := by omega
    rw [h0] at htake
    simp only [List.take_zero, List.append_nil] at htake
    have hpre : ".json".data <+: t.drop i := by
      apply List.prefix_iff_eq_take.mpr
      rw [hj5]
      exact htake
    obtain ⟨r, hr⟩ := hpre
    apply h
    refine ⟨t.take i, r, ?_⟩
    rw [List.append_assoc, hr, List.take_append_drop]
  · have h1 : t.drop i ≠ [] := by
      intro hnil
      have hld := List.length_drop i t
      rw [hnil] at hld
      simp at hld
      omega
    exact not_prefix_append_self (t.drop i) h1 (by omega) hp

lemma replAux_unique (rep : List Char) :
    ∀ (t : List Char) (fuel : Nat), (t ++ ".json".data).length ≤ fuel →
      (∀ i, i < t.length → ¬ (".json".data <+: (t ++ ".json".data).drop i)) →
      pyReplaceAux ".json".data rep fuel (t ++ ".json".data) = t ++ rep := by
  intro t
  induction t with
  | nil =>
    intro fuel hf _
    cases fuel with
    | zero => simp at hf
    | succ n =>
      show pyReplaceAux ['.', 'j', 's', 'o', 'n'] rep (n + 1) ([] ++ ['.', 'j', 's', 'o', 'n'])
        = [] ++ rep
      simp only [List.nil_append]
      rw [show pyReplaceAux ['.', 'j', 's', 'o', 'n'] rep (n + 1) ['.', 'j', 's', 'o', 'n']
        = rep ++ pyReplaceAux ['.', 'j', 's', 'o', 'n'] rep n [] from by
          simp [pyReplaceAux]]
      rw [replAux_nil, List.append_nil]
  | cons c t' ih =>
    intro fuel hf hocc
    cases fuel with
    | zero =>
      exfalso
      simp [List.length_append] at hf
    | succ n =>
      have h0 := hocc 0 (by simp)
      simp only [List.drop_zero] at h0
      have hnp : (".json".data.isPrefixOf ((c :: t') ++ ".json".data)) = false := by
        cases hb : ".json".data.isPrefixOf ((c :: t') ++ ".json".data) with
        | false => rfl
        | true => exact absurd (List.isPrefixOf_iff_prefix.mp hb) h0
      have hcons : (c :: t') ++ ".json".data = c :: (t' ++ ".json".data) := rfl
      rw [hcons] at hnp
      have hstep : pyReplaceAux ".json".data rep (n + 1) (c :: (t' ++ ".json".data))
          = c :: pyReplaceAux ".json".data rep n (t' ++ ".json".data) := by
        simp [pyReplaceAux, hnp]
      rw [hcons, hstep]
      rw [ih n (by simp [List.length_append] at hf ⊢; omega)
        (fun i hi => by
          have := hocc (i + 1) (by simp; omega)
          rw [hcons] at this
          simpa using this)]
      rfl

lemma pyReplace_good (stem : String) (h : ¬ (".json".data <:+: stem.data)) :
    video_path_of (stem ++ ".json") = stem ++ ".mp4" := by
  unfold video_path_of pyReplace
  rw [if_neg (by decide : ¬(".json".data = []))]
  apply String.ext
  show pyReplaceAux ".json".data ".mp4".data (stem ++ ".json").data.length (stem ++ ".json").data
    = (stem ++ ".mp4").data
  rw [String.data_append, String.data_append]
  exact replAux_unique ".mp4".data stem.data _ (le_refl _) (no_early_occurrence stem.data h)

lemma pyEndsWith_append (s suf : String) : pyEndsWith (s ++ suf) suf = true := by
  unfold pyEndsWith
  rw [String.data_append]
  exact List.isSuffixOf_iff_suffix.mpr ⟨s.data, rfl⟩

lemma not_endsWith_json_of_endsWith_mp4 (s : String) (h : pyEndsWith s ".mp4" = true) :
    pyEndsWith s ".json" = false := by
  unfold pyEndsWith at h ⊢
  cases hb : (".json".data.isSuffixOf s.data) with
  | false => rfl
  | true =>
    exfalso
    obtain ⟨t1, ht1⟩ := List.isSuffixOf_iff_suffix.mp h
    obtain ⟨t2, ht2⟩ := List.isSuffixOf_iff_suffix.mp hb
    have e1 : s.data.getLast? = some '4' := by
      rw [← ht1, List.getLast?_append_of_ne_nil _ (by decide)]
      rfl
    have e2 : s.data.getLast? = some 'n' := by
      rw [← ht2, List.getLast?_append_of_ne_nil _ (by decide)]
      rfl
    rw [e1] at e2
    exact absurd e2 (by decide)

lemma endsWith_json_decomp (p : String) (h : pyEndsWith p ".json" = true) :
    p.data = p.data.take (p.data.length - 5) ++ ".json".data := by
  unfold pyEndsWith at h
  obtain ⟨t0, ht⟩ := List.isSuffixOf_iff_suffix.mp h
  have hlen : p.data.length - 5 = t0.length := by
    rw [← ht, List.length_append]
    have : (".json".data).length = 5 := rfl
    omega
  rw [hlen, ← ht, List.take_left]

lemma mp4_sidecar_name_eq (t0 : List Char) :
    mp4_sidecar_name ⟨t0 ++ ".mp4".data⟩ = ⟨t0 ++ ".json".data⟩ := by
  unfold mp4_sidecar_name
  apply String.ext
  show (t0 ++ ".mp4".data).take ((t0 ++ ".mp4".data).length - 4) ++ ".json".data
    = t0 ++ ".json".data
  have hlen : (t0 ++ ".mp4".data).length - 4 = t0.length := by
    rw [List.length_append]
    have : (".mp4".data).length = 4 := rfl
    omega
  rw [hlen, List.take_left]

lemma append_json_ne_mp4 (stem : String) : stem ++ ".json" ≠ stem ++ ".mp4" := by
  intro h
  have hd := congrArg String.data h
  rw [String.data_append, String.data_append] at hd
  have := List.append_cancel_left hd
  exact absurd this (by decide)

lemma sweepGo_dry (ma now : ℚ) :
    ∀ (wl : List (String × FsFile)) (t : FsTree) (r : Report),
      (sweepGo ma now true wl t r).1 = t := by
  intro wl
  induction wl with
  | nil => intro t r; rfl
  | cons e rest ih =>
    obtain ⟨p, f⟩ := e
    intro t r
    simp only [sweepGo]
    cases hE : pyEndsWith p ".json" with
    | false => simp only [Bool.false_eq_true, if_false]; exact ih t r
    | true =>
      simp only [if_true]
      cases hF : findFile t p with
      | none => dsimp only; exact ih t r
      | some ff =>
        dsimp only
        cases hP : ff.parse with
        | none => dsimp only; exact ih t r
        | some m =>
          dsimp only
          cases hS : should_delete m ma now with
          | false => simp only [Bool.false_eq_true, if_false]; exact ih t _
          | true => simp only [if_true]; exact ih t _

lemma cleanup_dry_files (files : FsTree) (dirs : List String) (ma now : ℚ) :
    (cleanup_recordings files dirs ma now true).files = files ∧
    (cleanup_recordings files dirs ma now true).dirs = dirs := by
  constructor <;> simp [cleanup_recordings, sweepGo_dry]

lemma video_path_decomp (p : String) (hE : pyEndsWith p ".json" = true)
    (hok : sidecar_name_ok p) :
    ∃ t0 : List Char, p = (⟨t0⟩ : String) ++ ".json" ∧
      video_path_of p = (⟨t0⟩ : String) ++ ".mp4" := by
  have hdec := endsWith_json_decomp p hE
  have hstem := hok hE
  generalize ht0 : p.data.take (p.data.length - 5) = t0 at hdec hstem
  have hp_eq : p = (⟨t0⟩ : String) ++ ".json" := by
    apply String.ext
    rw [String.data_append]
    exact hdec
  refine ⟨t0, hp_eq, ?_⟩
  rw [hp_eq]
  exact pyReplace_good ⟨t0⟩ hstem

lemma orphan_ne_video_path (p v : String) (hE : pyEndsWith p ".json" = true)
    (hok : sidecar_name_ok p)
    (hnosc : p ≠ mp4_sidecar_name v) : v ≠ video_path_of p := by
  intro hveq
  obtain ⟨t0, hp_eq, hvp_eq⟩ := video_path_decomp p hE hok
  apply hnosc
  rw [hp_eq]
  have hv_eq : v = (⟨t0 ++ ".mp4".data⟩ : String) := by
    rw [hveq, hvp_eq]
    apply String.ext
    rw [String.data_append]
  rw [hv_eq, mp4_sidecar_name_eq]
  apply String.ext
  rw [String.data_append]

lemma orphan_ne_sidecar (p v : String) (hE : pyEndsWith p ".json" = true)
    (hmp4 : pyEndsWith v ".mp4" = true) : v ≠ p := by
  intro hveq
  rw [← hveq] at hE
  rw [not_endsWith_json_of_endsWith_mp4 v hmp4] at hE
  exact absurd hE (by decide)

lemma sweepGo_preserves_orphan (ma now : ℚ) (v : String) (fv : FsFile)
    (hmp4 : pyEndsWith v ".mp4" = true) :
    ∀ (wl : List (String × FsFile)) (t : FsTree) (r : Report),
      (∀ e ∈ wl, sidecar_name_ok e.1) →
      (∀ e ∈ wl, e.1 ≠ mp4_sidecar_name v) →
      (v, fv) ∈ t →
      (v, fv) ∈ (sweepGo ma now false wl t r).1 := by
  intro wl
  induction wl with
  | nil => intro t r _ _ hv; exact hv
  | cons e rest ih =>
    obtain ⟨p, f⟩ := e
    intro t r hok hnosc hv
    have hokp : sidecar_name_ok p := hok (p, f) (List.mem_cons_self _ _)
    have hnoscp : p ≠ mp4_sidecar_name v := hnosc (p, f) (List.mem_cons_self _ _)
    have hokr : ∀ e ∈ rest, sidecar_name_ok e.1 := fun e he => hok e (List.mem_cons_of_mem _ he)
    have hnoscr : ∀ e ∈ rest, e.1 ≠ mp4_sidecar_name v :=
      fun e he => hnosc e (List.mem_cons_of_mem _ he)
    simp only [sweepGo]
    cases hE : pyEndsWith p ".json" with
    | false => simp only [Bool.false_eq_true, if_false]; exact ih t r hokr hnoscr hv
    | true =>
      simp only [if_true]
      cases hF : findFile t p with
      | none => dsimp only; exact ih t r hokr hnoscr hv
      | some ff =>
        dsimp only
        cases hP : ff.parse with
        | none => dsimp only; exact ih t r hokr hnoscr hv
        | some m =>
          dsimp only
          cases hS : should_delete m ma now with
          | false => simp only [Bool.false_eq_true, if_false]; exact ih t _ hokr hnoscr hv
          | true =>
            simp only [if_true, Bool.false_eq_true]
            apply ih _ _ hokr hnoscr
            have h1 : v ≠ video_path_of p := orphan_ne_video_path p v hE hokp hnoscp
            have h2 : v ≠ p := orphan_ne_sidecar p v hE hmp4
            simp only [removeFile, List.mem_filter, bne_iff_ne, ne_eq]
            exact ⟨⟨hv, h1⟩, h2⟩

lemma cleanup_files_eq (files : FsTree) (dirs : List String) (ma now : ℚ) :
    (cleanup_recordings files dirs ma now false).files
      = (sweepGo ma now false files files ⟨0, 0, 0⟩).1 := by
  simp [cleanup_recordings]

lemma should_delete_iff (m : Metadata) (ma now : ℚ) :
    should_delete m ma now = true ↔
      (m.keep.getD false = false ∧ pyStartsWith (m.type.getD "") "event" = false ∧
        get_recording_age_days m now > ma) := by
  unfold should_delete
  cases h1 : m.keep.getD false <;> cases h2 : pyStartsWith (m.type.getD "") "event" <;> simp

lemma sweep_pair (stem : String) (m : Metadata) (vsz : Nat) (ma now : ℚ)
    (hstem : ¬ (".json".data <:+: stem.data)) :
    (cleanup_recordings
        [(stem ++ ".json", ⟨some m, 1⟩), (stem ++ ".mp4", ⟨none, vsz⟩)]
        [] ma now false).files
      = (if should_delete m ma now = true then []
         else [(stem ++ ".json", ⟨some m, 1⟩), (stem ++ ".mp4", ⟨none, vsz⟩)]) := by
  have hej : pyEndsWith (stem ++ ".json") ".json" = true := pyEndsWith_append stem ".json"
  have hemp : pyEndsWith (stem ++ ".mp4") ".mp4" = true := pyEndsWith_append stem ".mp4"
  have hem : pyEndsWith (stem ++ ".mp4") ".json" = false :=
    not_endsWith_json_of_endsWith_mp4 _ hemp
  have hvp : video_path_of (stem ++ ".json") = stem ++ ".mp4" := pyReplace_good stem hstem
  have hne : stem ++ ".json" ≠ stem ++ ".mp4" := append_json_ne_mp4 stem
  have hb1 : ((stem ++ ".json") != (stem ++ ".mp4")) = true := by
    simp [bne_iff_ne]; exact hne
  have hb2 : ((stem ++ ".mp4") != (stem ++ ".mp4")) = false := by simp
  have hb3 : ((stem ++ ".json") != (stem ++ ".json")) = false := by simp
  rw [cleanup_files_eq]
  simp only [sweepGo, hej, if_true]
  have hff : findFile
      [(stem ++ ".json", (⟨some m, 1⟩ : FsFile)), (stem ++ ".mp4", ⟨none, vsz⟩)]
      (stem ++ ".json") = some ⟨some m, 1⟩ := by
    simp [findFile, List.find?]
  rw [hff]
  dsimp only
  cases hS : should_delete m ma now with
  | false =>
    simp only [Bool.false_eq_true, if_false]
    simp only [sweepGo, hem, Bool.false_eq_true, if_false]
  | true =>
    simp only [if_true]
    rw [hvp]
    have hrm : removeFile
        (removeFile
          [(stem ++ ".json", (⟨some m, 1⟩ : FsFile)), (stem ++ ".mp4", ⟨none, vsz⟩)]
          (stem ++ ".mp4"))
        (stem ++ ".json") = [] := by
      simp only [removeFile, List.filter, hb1, hb2, hb3]
    rw [hrm]
    simp only [sweepGo, hem, Bool.false_eq_true, if_false]

lemma run_connection_one_open_try (w : Bool) (c : ConnAttempt) :
    ((run_connection w c).2).count LoopAct.open_try = 1 := by
  cases c with
  | open_fail => cases w <;> rfl
  | open_ok reads =>
    cases reads with
    | nil => cases w <;> rfl
    | cons rr rs => cases rr <;> cases w <;> rfl

/-- C1 counterexample: two triggers at `t0 = 1000` and `t0 + 1` with
`post_duration = 60` submit two pre-event saves, not one, although the
window does end at `t0 + 61`. -/
theorem trigger_twice_creates_two_pre_event_saves :
    (trigger_event_recording (trigger_event_recording ⟨false, none, 0, 0⟩ 1000 60)
      1001 60).pre_event_saves = 2 ∧
    (trigger_event_recording (trigger_event_recording ⟨false, none, 0, 0⟩ 1000 60)
      1001 60).event_end_time = some 1061 ∧
    ¬ ((trigger_event_recording (trigger_event_recording ⟨false, none, 0, 0⟩ 1000 60)
      1001 60).pre_event_saves = 1) := by
  refine ⟨rfl, ?_, by decide⟩
  norm_num [trigger_event_recording]

/-- C1 amended: a second trigger still yields a single window ending at
`max` of the two candidate end times (the overwrite equals the max for
time-ordered triggers), but each call submits one more pre-event save. -/
theorem trigger_event_extends_window_but_saves_each_time
    (s : TrigState) (t0 t1 post : ℚ) (h : t0 ≤ t1) :
    (trigger_event_recording (trigger_event_recording s t0 post) t1 post).event_end_time
      = some (max (t0 + post) (t1 + post)) ∧
    (trigger_event_recording (trigger_event_recording s t0 post) t1 post).pre_event_saves
      = s.pre_event_saves + 2 := by
  constructor
  · simp only [trigger_event_recording]
    rw [max_eq_right (add_le_add_right h post)]
  · rfl

theorem trigger_event_extends_window_but_saves_each_time_witness :
    (0 : ℚ) ≤ 1 ∧
    ((trigger_event_recording (trigger_event_recording ⟨false, none, 0, 0⟩ 0 60)
        1 60).event_end_time = some (max ((0 : ℚ) + 60) (1 + 60)) ∧
     (trigger_event_recording (trigger_event_recording ⟨false, none, 0, 0⟩ 0 60)
        1 60).pre_event_saves = (⟨false, none, 0, 0⟩ : TrigState).pre_event_saves + 2) :=
  ⟨zero_le_one,
   trigger_event_extends_window_but_saves_each_time ⟨false, none, 0, 0⟩ 0 1 60 zero_le_one⟩

/-- C4: no sidecar writer ever emits a `retain` (or `keep`) key, so no
continuous segment overlapping a protection interval is ever marked. -/
theorem sidecars_never_carry_retain (cam f : String) (a b c d : ℚ) :
    (close_segment_metadata cam a b f).retain = none ∧
    (close_segment_metadata cam a b f).keep = none ∧
    (pre_event_metadata cam c d f).retain = none ∧
    (pre_event_metadata cam c d f).keep = none :=
  ⟨rfl, rfl, rfl, rfl⟩

set_option maxRecDepth 10000 in
/-- C5: pushing 101 frames at one-second spacing (timestamps 0..100)
leaves the 100-entry deque holding timestamp 1, an entry 99 seconds old
— far beyond a 60-second lookback; eviction is by count, not age. -/
theorem frame_buffer_keeps_stale_entries :
    ((List.range 101).foldl frame_buffer_append ([] : List Nat)).head? = some 1 ∧
    ((List.range 101).foldl frame_buffer_append ([] : List Nat)).length = 100 ∧
    (100 : Nat) - 1 > 60 := by decide

/-- C9: in both artifact writers, every sidecar write in the effect
trace is preceded by the release of the artifact's video writer. -/
theorem sidecar_committed_only_after_writer_release :
    ∀ w b : Bool,
      sidecar_after_release false (close_segment_writer_acts w) = true ∧
      sidecar_after_release false (save_pre_event_buffer_acts b) = true := by
  decide

/-- C10: one successful frame read is enough to raise the unbound-local
error: the trace of a connection whose first read succeeds contains
`unbound_local_error` right after the frame write. -/
theorem frame_loop_raises_unbound_local :
    start_processing false [ConnAttempt.open_ok [ReadResult.ok]]
      = [LoopAct.open_try, LoopAct.start_writer, LoopAct.append_buffer,
         LoopAct.write_frame, LoopAct.unbound_local_error, LoopAct.backoff] ∧
    LoopAct.unbound_local_error ∈ start_processing false [ConnAttempt.open_ok [ReadResult.ok]] := by
  decide

/-- C8 counterexample: a read failure is followed by an immediate
reconnect attempt — the trace contains a second `open_try` but no
`backoff` at all. -/
theorem read_failure_reconnects_without_backoff :
    start_processing false [ConnAttempt.open_ok [ReadResult.fail], ConnAttempt.open_ok []]
      = [LoopAct.open_try, LoopAct.release_capture, LoopAct.open_try, LoopAct.release_capture] ∧
    LoopAct.backoff ∉
      start_processing false [ConnAttempt.open_ok [ReadResult.fail], ConnAttempt.open_ok []] ∧
    (start_processing false [ConnAttempt.open_ok [ReadResult.fail],
        ConnAttempt.open_ok []]).count LoopAct.open_try = 2 := by
  decide

/-- C8 amended: the loop attempts every connection in the script (one
`open_try` each, never terminating on failure); an open failure is
followed by the fixed 5-second backoff before the next attempt, while a
read failure closes any open segment, releases the capture and retries
with no backoff. -/
theorem reconnect_loop_retries_every_connection :
    (∀ (w : Bool) (cs : List ConnAttempt),
      (start_processing w cs).count LoopAct.open_try = cs.length) ∧
    (∀ (w : Bool) (cs : List ConnAttempt),
      start_processing w (ConnAttempt.open_fail :: cs)
        = LoopAct.open_try :: LoopAct.backoff :: start_processing w cs) ∧
    (∀ (w : Bool) (rs : List ReadResult) (cs : List ConnAttempt),
      start_processing w (ConnAttempt.open_ok (ReadResult.fail :: rs) :: cs)
        = (LoopAct.open_try :: ((if w then [LoopAct.close_segment] else [])
            ++ [LoopAct.release_capture])) ++ start_processing false cs) := by
  refine ⟨?_, ?_, ?_⟩
  · intro w cs
    induction cs generalizing w with
    | nil => rfl
    | cons c cs ih =>
      simp only [start_processing, List.count_append, run_connection_one_open_try,
        List.length_cons, ih]
      omega
  · intro w cs; rfl
  · intro w rs cs; rfl

/-- C2: an eight-day-old `pre_event` sidecar (with the seven-day policy)
is selected for deletion — `'pre_event'.startswith('event')` is false
and no `keep` key is written — and the sweep removes the pair. -/
theorem stale_pre_event_artifact_deleted :
    should_delete { type := some "pre_event", end_time := some 86400 } 7 777600 = true ∧
    (cleanup_recordings
        [("cam1/pre_event_10-00-00.json",
            ⟨some { type := some "pre_event", end_time := some 86400 }, 1⟩),
         ("cam1/pre_event_10-00-00.mp4", ⟨none, 7⟩)]
        [] 7 777600 false).files = [] := by
  have hps : pyStartsWith "pre_event" "event" = false := by decide
  have hsd : should_delete { type := some "pre_event", end_time := some 86400 } 7 777600
      = true := by
    norm_num [should_delete, get_recording_age_days, hps]
  refine ⟨hsd, ?_⟩
  have h1 : pyEndsWith "cam1/pre_event_10-00-00.json" ".json" = true := by decide
  have h2 : pyEndsWith "cam1/pre_event_10-00-00.mp4" ".json" = false := by decide
  have h3 : findFile
      [("cam1/pre_event_10-00-00.json",
          (⟨some { type := some "pre_event", end_time := some 86400 }, 1⟩ : FsFile)),
       ("cam1/pre_event_10-00-00.mp4", ⟨none, 7⟩)] "cam1/pre_event_10-00-00.json"
      = some ⟨some { type := some "pre_event", end_time := some 86400 }, 1⟩ := by decide
  simp only [cleanup_recordings, sweepGo, h1, h2, hsd, h3, if_true, if_false,
    Bool.false_eq_true, ite_true, ite_false]
  decide

/-- C3 counterexample: an eight-day-old `continuous` sidecar carrying
`retain = true` is still deleted with the pair — the sweeper never reads
`retain`, only `keep`. -/
theorem retained_continuous_sidecar_deleted :
    ({ type := some "continuous", end_time := some 86400, retain := some true }
      : Metadata).retain = some true ∧
    should_delete { type := some "continuous", end_time := some 86400, retain := some true }
      7 777600 = true ∧
    (cleanup_recordings
        [("cam1/segment_10-00-00.json",
            ⟨some { type := some "continuous", end_time := some 86400, retain := some true }, 1⟩),
         ("cam1/segment_10-00-00.mp4", ⟨none, 7⟩)]
        [] 7 777600 false).files = [] := by
  have hps : pyStartsWith "continuous" "event" = false := by decide
  have hsd : should_delete
      { type := some "continuous", end_time := some 86400, retain := some true } 7 777600
      = true := by
    norm_num [should_delete, get_recording_age_days, hps]
  refine ⟨rfl, hsd, ?_⟩
  have h1 : pyEndsWith "cam1/segment_10-00-00.json" ".json" = true := by decide
  have h2 : pyEndsWith "cam1/segment_10-00-00.mp4" ".json" = false := by decide
  have h3 : findFile
      [("cam1/segment_10-00-00.json",
          (⟨some { type := some "continuous", end_time := some 86400, retain := some true }, 1⟩
            : FsFile)),
       ("cam1/segment_10-00-00.mp4", ⟨none, 7⟩)] "cam1/segment_10-00-00.json"
      = some ⟨some { type := some "continuous", end_time := some 86400, retain := some true }, 1⟩ := by
    decide
  simp only [cleanup_recordings, sweepGo, h1, h2, hsd, h3, if_true, if_false,
    Bool.false_eq_true, ite_true, ite_false]
  decide

/-- C3 amended: for a well-named committed pair, the non-dry sweep
deletes video plus sidecar exactly when `keep` (default false) is not
set, the `type` string does not start with `"event"`, and the age in
days exceeds `max_age_days`; the spec's `retain` field plays no role. -/
theorem sweep_deletes_pair_iff_keep_type_age (stem : String) (m : Metadata) (vsz : Nat)
    (ma now : ℚ) (hstem : ¬ (".json".data <:+: stem.data)) :
    (cleanup_recordings
        [(stem ++ ".json", ⟨some m, 1⟩), (stem ++ ".mp4", ⟨none, vsz⟩)]
        [] ma now false).files
      = (if m.keep.getD false = false ∧ pyStartsWith (m.type.getD "") "event" = false ∧
            get_recording_age_days m now > ma
         then []
         else [(stem ++ ".json", ⟨some m, 1⟩), (stem ++ ".mp4", ⟨none, vsz⟩)]) := by
  rw [sweep_pair stem m vsz ma now hstem]
  by_cases h : m.keep.getD false = false ∧ pyStartsWith (m.type.getD "") "event" = false ∧
      get_recording_age_days m now > ma
  · rw [if_pos h, if_pos ((should_delete_iff m ma now).mpr h)]
  · rw [if_neg h, if_neg (fun hs => h ((should_delete_iff m ma now).mp hs))]

/-- An eight-day-old retained continuous sidecar record, used as a
concrete instantiation below. -/
def contRetainMeta : Metadata :=
  { type := some "continuous", end_time := some 86400, retain := some true }

theorem sweep_deletes_pair_iff_keep_type_age_witness :
    (¬ (".json".data <:+: "a".data)) ∧
    (cleanup_recordings
        [("a" ++ ".json", ⟨some contRetainMeta, 1⟩), ("a" ++ ".mp4", ⟨none, 5⟩)]
        [] 7 777600 false).files
      = (if contRetainMeta.keep.getD false = false ∧
            pyStartsWith (contRetainMeta.type.getD "") "event" = false ∧
            get_recording_age_days contRetainMeta 777600 > 7
         then []
         else [("a" ++ ".json", ⟨some contRetainMeta, 1⟩), ("a" ++ ".mp4", ⟨none, 5⟩)]) :=
  ⟨by decide,
   sweep_deletes_pair_iff_keep_type_age "a" contRetainMeta 5 7 777600 (by decide)⟩

/-- C6: a dry run leaves every file and every directory of the storage
tree in place; only the report is produced. -/
theorem dry_run_is_pure_report (files : FsTree) (dirs : List String) (ma now : ℚ) :
    (cleanup_recordings files dirs ma now true).files = files ∧
    (cleanup_recordings files dirs ma now true).dirs = dirs :=
  cleanup_dry_files files dirs ma now

/-- C7 counterexample: `str.replace('.json', '.mp4')` replaces every
occurrence, so the sidecar named `a.json.json` maps to video path
`a.mp4.mp4` — and the sweep deletes that file even though no sidecar
with its stem (`a.mp4.json`) exists anywhere in the tree. -/
theorem orphan_video_deleted_by_double_extension :
    pyEndsWith "a.mp4.mp4" ".mp4" = true ∧
    mp4_sidecar_name "a.mp4.mp4" = "a.mp4.json" ∧
    "a.mp4.json" ∉ ["a.json.json", "a.mp4.mp4"] ∧
    ([("a.json.json", (⟨some { type := some "continuous", end_time := some 86400 }, 1⟩ : FsFile)),
      ("a.mp4.mp4", ⟨none, 9⟩)].map Prod.fst) = ["a.json.json", "a.mp4.mp4"] ∧
    video_path_of "a.json.json" = "a.mp4.mp4" ∧
    (cleanup_recordings
        [("a.json.json", ⟨some { type := some "continuous", end_time := some 86400 }, 1⟩),
         ("a.mp4.mp4", ⟨none, 9⟩)]
        [] 7 777600 false).files = [] := by
  have hps : pyStartsWith "continuous" "event" = false := by decide
  have hsd : should_delete { type := some "continuous", end_time := some 86400 } 7 777600
      = true := by
    norm_num [should_delete, get_recording_age_days, hps]
  have h1 : pyEndsWith "a.json.json" ".json" = true := by decide
  have h2 : pyEndsWith "a.mp4.mp4" ".json" = false := by decide
  have h3 : findFile
      [("a.json.json", (⟨some { type := some "continuous", end_time := some 86400 }, 1⟩ : FsFile)),
       ("a.mp4.mp4", ⟨none, 9⟩)] "a.json.json"
      = some ⟨some { type := some "continuous", end_time := some 86400 }, 1⟩ := by decide
  refine ⟨by decide, by decide, by decide, by decide, by decide, ?_⟩
  simp only [cleanup_recordings, sweepGo, h1, h2, hsd, h3, if_true, if_false,
    Bool.false_eq_true, ite_true, ite_false]
  decide

/-- C7 amended: over trees whose sidecar names contain `.json` only as
the final extension, a video file with no same-stem sidecar survives the
non-dry sweep at any age and any `max_age_days`. -/
theorem orphan_video_never_deleted (files : FsTree) (dirs : List String) (ma now : ℚ)
    (v : String) (fv : FsFile)
    (hok : ∀ e ∈ files, sidecar_name_ok e.1)
    (hv : (v, fv) ∈ files)
    (hmp4 : pyEndsWith v ".mp4" = true)
    (hnosc : ∀ e ∈ files, e.1 ≠ mp4_sidecar_name v) :
    (v, fv) ∈ (cleanup_recordings files dirs ma now false).files := by
  rw [cleanup_files_eq]
  exact sweepGo_preserves_orphan ma now v fv hmp4 files files ⟨0, 0, 0⟩ hok hnosc hv

instance sidecar_name_ok_decidable (p : String) : Decidable (sidecar_name_ok p) := by
  unfold sidecar_name_ok
  infer_instance

/-- The storage tree used to instantiate the orphan-safety theorem: an
expired pair `b.json`/`b.mp4` plus the orphan video `c.mp4`. -/
def orphanWitnessTree : FsTree :=
  [("b.json", ⟨some { type := some "continuous", end_time := some 86400 }, 1⟩),
   ("b.mp4", ⟨none, 5⟩),
   ("c.mp4", ⟨none, 3⟩)]

theorem orphan_video_never_deleted_witness :
    (∀ e ∈ orphanWitnessTree, sidecar_name_ok e.1) ∧
    ("c.mp4", (⟨none, 3⟩ : FsFile)) ∈ orphanWitnessTree ∧
    pyEndsWith "c.mp4" ".mp4" = true ∧
    (∀ e ∈ orphanWitnessTree, e.1 ≠ mp4_sidecar_name "c.mp4") ∧
    ("c.mp4", (⟨none, 3⟩ : FsFile)) ∈
      (cleanup_recordings orphanWitnessTree [] 7 777600 false).files :=
  ⟨by decide, by decide, by decide, by decide,
   orphan_video_never_deleted orphanWitnessTree [] 7 777600 "c.mp4" ⟨none, 3⟩
     (by decide) (by decide) (by decide) (by decide)⟩
